import Mathlib

/-!
Verification of the realtime voice-assistant component
(`src/components/SevaAssistant.tsx`) against its specification.

The component is shallowly embedded: device times, playback durations and
audio sample values are rationals; the four independent `if` branches of the
`onmessage` handler become a pipeline of pure state-transforming branches;
the JavaScript `Int16Array` store semantics (truncation toward zero followed
by wrap-around modulo 2^16 interpreted as signed) is made explicit; and the
pending session promise's reaction queue is modelled as an explicit FIFO
channel, following ECMAScript promise-job ordering.
-/

/-- Truncation toward zero, the integer conversion JavaScript applies when a
number is stored into an `Int16Array` (`ToIntegerOrInfinity`). -/
def jsTrunc (q : ℚ) : ℤ :=
  if 0 ≤ q then ⌊q⌋ else ⌈q⌉

/-- Wrap an integer to the signed 16-bit range, as the `ToInt16` step of a
JavaScript `Int16Array` store does: reduce modulo 2^16 and reinterpret the
result as a signed 16-bit value. -/
def toInt16 (n : ℤ) : ℤ :=
  ((n + 32768) % 65536) - 32768

/-- One sample of the capture pipeline: `int16[i] = inputData[i] * 32768`
(SevaAssistant.tsx line 63), with the `Int16Array` store semantics applied. -/
def encodeSample (v : ℚ) : ℤ :=
  toInt16 (jsTrunc (v * 32768))

/-- One sample of the playback decoder:
`channelData[i] = dataInt16[i * numChannels + channel] / 32768.0`
(SevaAssistant.tsx line 37). -/
def decodeSample (n : ℤ) : ℚ :=
  (n : ℚ) / 32768

/-- The de-interleaving loop of `decodeAudioData` (SevaAssistant.tsx
lines 30-41): channel `c`, frame `i` reads interleaved sample
`i * numChannels + c` and rescales it to floating point. -/
def decodeChannels (dataInt16 : List ℤ) (numChannels : ℕ) : List (List ℚ) :=
  let frameCount := dataInt16.length / numChannels
  (List.range numChannels).map fun c =>
    (List.range frameCount).map fun i =>
      decodeSample (dataInt16.getD (i * numChannels + c) 0)

/-- The scheduling step of the playback scheduler (SevaAssistant.tsx
lines 89-91): given the playback clock `clock`, the output device time `t`
and the decoded buffer's duration `d`, the buffer starts at
`max clock t` and the clock advances to that start time plus `d`.
Returns `(start, new clock)`. -/
def scheduleFrame (clock t d : ℚ) : ℚ × ℚ :=
  (max clock t, max clock t + d)

/-- Iterated scheduling: each inbound frame is a pair
`(device time at scheduling, duration)`; returns the list of scheduled start
times, threading the playback clock through `scheduleFrame`. -/
def scheduleAll (clock : ℚ) : List (ℚ × ℚ) → List ℚ
  | [] => []
  | f :: rest =>
    (scheduleFrame clock f.1 f.2).1 ::
      scheduleAll (scheduleFrame clock f.1 f.2).2 rest

/-- One tracked playback (`AudioBufferSourceNode` registered in
`sourcesRef`). `id` models JavaScript object identity, `start` and `dur` the
scheduled start time and buffer duration, `ended` whether playback already
finished naturally, `stopRequested` whether `stop()` has been applied. -/
structure Source where
  id : ℕ
  start : ℚ
  dur : ℚ
  ended : Bool
  stopRequested : Bool
deriving DecidableEq, Repr, Inhabited

/-- `s.stop()` on an output buffer node: per the spec's error taxonomy,
stopping a playback that has already completed raises, otherwise the node is
marked stopped. -/
def stopSource (s : Source) : Except String Source :=
  if s.ended then Except.error "InvalidStateError"
  else Except.ok { s with stopRequested := true }

/-- `try { s.stop(); } catch (e) {}` (SevaAssistant.tsx line 109): a raised
stop error is swallowed and the node is left as it was. -/
def tryStopSource (s : Source) : Source :=
  match stopSource s with
  | Except.ok s' => s'
  | Except.error _ => s

/-- `sourcesRef.current.forEach(s => { try { s.stop(); } catch(e) {} })`
(SevaAssistant.tsx lines 108-110): every tracked source is visited in
insertion order, with each stop error swallowed. -/
def stopAll (srcs : List Source) : List Source :=
  srcs.map tryStopSource

/-- The component state: the five `useState` values and the three mutable
refs of `SevaAssistant` (`nextStartTimeRef` is the playback clock,
`sourcesRef` the tracked-playback set, `sessionRef` the session handle;
`nextId` supplies fresh object identities for new source nodes, and
`audioCtxSet` records the `audioContextRef` assignment). -/
structure SevaState where
  isActive : Bool
  isMinimized : Bool
  isVisible : Bool
  transcription : String
  isSpeaking : Bool
  nextStartTime : ℚ
  sources : List Source
  nextId : ℕ
  sessionRef : Option Unit
  audioCtxSet : Bool
deriving DecidableEq, Repr

/-- The initial component state (the `useState` initialisers and the initial
ref values). -/
def initState : SevaState :=
  { isActive := false
    isMinimized := true
    isVisible := true
    transcription := ""
    isSpeaking := false
    nextStartTime := 0
    sources := []
    nextId := 0
    sessionRef := none
    audioCtxSet := false }

/-- An inbound server message, mirroring the four independently tested
fields of `msg.serverContent` in `onmessage`: an optional audio chunk
(modelled by its decoded duration together with the output-device time read
when it is scheduled), an optional input-transcription text, a turn-complete
flag and an interrupted flag. -/
structure ServerMsg where
  audioData : Option (ℚ × ℚ)
  inputTranscription : Option String
  turnComplete : Bool
  interrupted : Bool
deriving DecidableEq, Repr

/-- A message carrying only an input-transcription update. -/
def transcriptMsg (t : String) : ServerMsg :=
  { audioData := none, inputTranscription := some t
    turnComplete := false, interrupted := false }

/-- A message carrying only the turn-complete signal. -/
def turnMsg : ServerMsg :=
  { audioData := none, inputTranscription := none
    turnComplete := true, interrupted := false }

/-- A message carrying only the interrupted signal. -/
def interruptMsg : ServerMsg :=
  { audioData := none, inputTranscription := none
    turnComplete := false, interrupted := true }

/-- A message carrying only an audio chunk of duration `d`, scheduled when
the output device clock reads `t`. -/
def audioMsg (t d : ℚ) : ServerMsg :=
  { audioData := some (d, t), inputTranscription := none
    turnComplete := false, interrupted := false }

/-- The audio branch of `onmessage` (SevaAssistant.tsx lines 79-96):
set the speaking indicator, schedule the decoded buffer via `scheduleFrame`,
advance the playback clock and register the new source in the tracked set. -/
def audioBranch (st : SevaState) : Option (ℚ × ℚ) → SevaState
  | none => st
  | some (d, t) =>
    { st with
      isSpeaking := true
      nextStartTime := (scheduleFrame st.nextStartTime t d).2
      sources := st.sources ++
        [{ id := st.nextId, start := (scheduleFrame st.nextStartTime t d).1
           dur := d, ended := false, stopRequested := false }]
      nextId := st.nextId + 1 }

/-- The input-transcription branch of `onmessage` (lines 98-100):
`setTranscription(msg.serverContent.inputTranscription.text)` replaces the
buffer with the event's text. -/
def transcriptionBranch (st : SevaState) : Option String → SevaState
  | none => st
  | some t => { st with transcription := t }

/-- The turn-complete branch of `onmessage` (lines 101-106):
`if (onCommand && t) onCommand(t); return ''` — when a command callback is
installed and the buffer is non-empty, emit the buffer once, and reset the
buffer to empty in every case. Returns the new state and the list of
dispatched commands. -/
def turnCompleteBranch (cb : Bool) (st : SevaState) : Bool → SevaState × List String
  | false => (st, [])
  | true =>
    ({ st with transcription := "" },
      if cb = true ∧ st.transcription ≠ "" then [st.transcription] else [])

/-- The interrupted branch of `onmessage` (lines 107-114): every tracked
source is stopped best-effort (`stopAll`, whose result lives on the audio
device, not in component state), the tracked set is cleared, the playback
clock is reset to zero and the speaking indicator is cleared. -/
def interruptedBranch (st : SevaState) : Bool → SevaState
  | false => st
  | true => { st with sources := [], nextStartTime := 0, isSpeaking := false }

/-- The whole `onmessage` handler: the four branches run in source order on
the fields they test; `cb` records whether the optional `onCommand` prop was
supplied. Returns the new state and the commands dispatched. -/
def handleMessage (cb : Bool) (st : SevaState) (m : ServerMsg) : SevaState × List String :=
  let st1 := audioBranch st m.audioData
  let st2 := transcriptionBranch st1 m.inputTranscription
  let p := turnCompleteBranch cb st2 m.turnComplete
  (interruptedBranch p.1 m.interrupted, p.2)

/-- Run a sequence of inbound messages, accumulating dispatched commands in
order. -/
def runMsgs (cb : Bool) (st : SevaState) : List ServerMsg → SevaState × List String
  | [] => (st, [])
  | m :: rest =>
    let r := handleMessage cb st m
    let r2 := runMsgs cb r.1 rest
    (r2.1, r.2 ++ r2.2)

/-- The `onended` callback of a scheduled source (lines 93-96): remove the
source from the tracked set, and clear the speaking indicator exactly when
the set became empty. -/
def handleEnded (st : SevaState) (s : Source) : SevaState :=
  let sources' := st.sources.erase s
  { st with
    sources := sources'
    isSpeaking := if sources'.isEmpty then false else st.isSpeaking }

/-- An event observable by the playback-tracking state: an inbound server
message or the natural end of one source's playback. -/
inductive Event where
  | server (m : ServerMsg)
  | ended (s : Source)
deriving DecidableEq, Repr

/-- One event step on the component state. -/
def stepEvent (cb : Bool) (st : SevaState) : Event → SevaState × List String
  | Event.server m => handleMessage cb st m
  | Event.ended s => (handleEnded st s, [])

/-- Run a sequence of events from a state. -/
def runEvents (cb : Bool) (st : SevaState) : List Event → SevaState × List String
  | [] => (st, [])
  | e :: rest =>
    let r := stepEvent cb st e
    let r2 := runEvents cb r.1 rest
    (r2.1, r.2 ++ r2.2)

/-- The speaking-indicator invariant: whenever at least one playback is
tracked, the speaking indicator is on. -/
def speakingInv (st : SevaState) : Prop :=
  st.sources ≠ [] → st.isSpeaking = true

/-- The session channel: `sessionPromise` with its reaction queue.
`resolved` records whether the connection promise has resolved, `queued` the
frames whose `.then` reactions were registered before resolution (in
registration order), `sent` the frames actually delivered to the session. -/
structure Channel where
  resolved : Bool
  queued : List ℕ
  sent : List ℕ
deriving DecidableEq, Repr

/-- The channel before the connection is established. -/
def chanInit : Channel :=
  { resolved := false, queued := [], sent := [] }

/-- An operation on the session channel: the capture callback submitting one
frame (`sessionPromise.then(session => session.sendRealtimeInput(...))`,
SevaAssistant.tsx lines 71-73), or the connection promise resolving. -/
inductive ChanOp where
  | capture (f : ℕ)
  | resolve
deriving DecidableEq, Repr

/-- One channel step, following ECMAScript promise-job ordering: a `.then`
registered before resolution is queued FIFO and runs when the promise
resolves; a `.then` registered after resolution delivers its frame next. -/
def chanStep (ch : Channel) : ChanOp → Channel
  | ChanOp.capture f =>
    if ch.resolved then { ch with sent := ch.sent ++ [f] }
    else { ch with queued := ch.queued ++ [f] }
  | ChanOp.resolve =>
    { resolved := true, queued := [], sent := ch.sent ++ ch.queued }

/-- Run a sequence of channel operations. -/
def runChan (ch : Channel) (ops : List ChanOp) : Channel :=
  ops.foldl chanStep ch

/-- The frames a sequence of operations captures, in capture order. -/
def captures (ops : List ChanOp) : List ℕ :=
  ops.filterMap fun op =>
    match op with
    | ChanOp.capture f => some f
    | ChanOp.resolve => none

/-- `startSession` (SevaAssistant.tsx lines 43-133): the output audio
context is stored first; then `getUserMedia` may fail (`micOk = false`) or
the `ai.live.connect` handshake may fail (`connectOk = false`), in which
case the `catch` only logs; on success the resolved session handle is
stored, the component becomes active and the widget un-minimises. -/
def startSessionModel (st : SevaState) (micOk connectOk : Bool) : SevaState :=
  let st1 := { st with audioCtxSet := true }
  if micOk then
    if connectOk then
      { st1 with sessionRef := some (), isActive := true, isMinimized := false }
    else st1
  else st1

/-- `stopSession` (SevaAssistant.tsx lines 135-142): close the remote
session only when a handle is stored, null the handle, deactivate and
minimise. The boolean records whether `close()` was invoked on the remote
session. -/
def stopSessionModel (st : SevaState) : SevaState × Bool :=
  match st.sessionRef with
  | some _ =>
    ({ st with sessionRef := none, isActive := false, isMinimized := true }, true)
  | none =>
    ({ st with isActive := false, isMinimized := true }, false)

/-! ## Scheduling lemmas (playback scheduler) -/

lemma scheduleAll_length (frames : List (ℚ × ℚ)) :
    ∀ clock : ℚ, (scheduleAll clock frames).length = frames.length := by
  induction frames with
  | nil => intro clock; rfl
  | cons f rest ih => intro clock; simp [scheduleAll, ih]

lemma scheduleAll_head_ge (frames : List (ℚ × ℚ)) (clock : ℚ)
    (h : frames ≠ []) : clock ≤ (scheduleAll clock frames).getD 0 0 := by
  cases frames with
  | nil => exact absurd rfl h
  | cons f rest => simp [scheduleAll, scheduleFrame]

lemma scheduleAll_step (frames : List (ℚ × ℚ)) (clock : ℚ) (i : ℕ)
    (h : i + 1 < frames.length) :
    (scheduleAll clock frames).getD i 0 + (frames.getD i (0, 0)).2
      ≤ (scheduleAll clock frames).getD (i + 1) 0 := by
  induction frames generalizing clock i with
  | nil => simp at h
  | cons f rest ih =>
    cases i with
    | zero =>
      have hne : rest ≠ [] := by
        intro hr
        rw [hr] at h
        simp at h
      simpa [scheduleAll, scheduleFrame] using
        scheduleAll_head_ge rest (max clock f.1 + f.2) hne
    | succ j =>
      simpa [scheduleAll] using ih (scheduleFrame clock f.1 f.2).2 j (by simpa using h)

lemma scheduleAll_not_past (frames : List (ℚ × ℚ)) (clock : ℚ) (i : ℕ)
    (h : i < frames.length) :
    (frames.getD i (0, 0)).1 ≤ (scheduleAll clock frames).getD i 0 := by
  induction frames generalizing clock i with
  | nil => simp at h
  | cons f rest ih =>
    cases i with
    | zero => simp [scheduleAll, scheduleFrame]
    | succ j =>
      simpa [scheduleAll] using ih (scheduleFrame clock f.1 f.2).2 j (by simpa using h)

/-- Claim C1: each inbound frame is scheduled at `max(PlaybackClock, device
time)` and the clock then advances by the frame's duration; consequently,
for any initial clock and any sequence of frames (device time, duration)
with nonnegative durations, no start time lies in the past relative to the
device clock read at scheduling, and the start times satisfy
`start[i] + d[i] ≤ start[i+1]`, hence are non-decreasing. -/
theorem seva_scheduling_no_overlap (clock : ℚ) (frames : List (ℚ × ℚ))
    (hd : ∀ p ∈ frames, 0 ≤ p.2) :
    (∀ c t d : ℚ, scheduleFrame c t d = (max c t, max c t + d))
    ∧ (∀ i, i < frames.length →
        (frames.getD i (0, 0)).1 ≤ (scheduleAll clock frames).getD i 0)
    ∧ (∀ i, i + 1 < frames.length →
        (scheduleAll clock frames).getD i 0 + (frames.getD i (0, 0)).2
            ≤ (scheduleAll clock frames).getD (i + 1) 0
        ∧ (scheduleAll clock frames).getD i 0
            ≤ (scheduleAll clock frames).getD (i + 1) 0) := by
  refine ⟨fun c t d => rfl, fun i hi => scheduleAll_not_past frames clock i hi,
    fun i hi => ⟨scheduleAll_step frames clock i hi, ?_⟩⟩
  have hmem : frames.getD i (0, 0) ∈ frames := by
    rw [List.getD_eq_getElem frames (0, 0) (by omega)]
    exact List.getElem_mem _
  have hdi : 0 ≤ (frames.getD i (0, 0)).2 := hd _ hmem
  have := scheduleAll_step frames clock i hi
  linarith

/-- Witness for C1 at two concrete half-second frames. -/
theorem seva_scheduling_no_overlap_witness :
    (scheduleAll 0 [((0 : ℚ), 1 / 2), (1 / 4, 1 / 2)]).getD 0 0
        + (([((0 : ℚ), (1 : ℚ) / 2), (1 / 4, 1 / 2)]).getD 0 (0, 0)).2
      ≤ (scheduleAll 0 [((0 : ℚ), 1 / 2), (1 / 4, 1 / 2)]).getD 1 0 :=
  ((seva_scheduling_no_overlap 0 [((0 : ℚ), 1 / 2), (1 / 4, 1 / 2)]
      (by norm_num)).2.2 0 (by norm_num)).1

/-! ## PCM round-trip (capture encode, playback decode) -/

/-- Claim C2 as stated is false: at `v = 1.0`, the capture pipeline computes
`1.0 * 32768 = 32768`, which the `Int16Array` store wraps to `-32768`, so
the decoded value is `-1.0`, at distance `2` from `v` — far more than one
quantization step. -/
theorem pcm_roundtrip_cex :
    (-1 ≤ (1 : ℚ) ∧ (1 : ℚ) ≤ 1)
    ∧ decodeSample (encodeSample 1) = -1
    ∧ ¬ |decodeSample (encodeSample 1) - 1| ≤ 1 / 32768 := by
  norm_num [encodeSample, decodeSample, jsTrunc, toInt16]

/-- Claim C2, amended: for every sample value `v` with `-1.0 ≤ v < 1.0`,
encoding by the capture pipeline's `v * 32768` stored into an `Int16Array`
and decoding by the playback decoder's `int16 / 32768.0` yields a value
within one quantization step (`1/32768`) of `v`. -/
theorem pcm_roundtrip (v : ℚ) (h1 : -1 ≤ v) (h2 : v < 1) :
    |decodeSample (encodeSample v) - v| ≤ 1 / 32768 := by
  have hq1 : (-32768 : ℚ) ≤ v * 32768 := by linarith
  have hq2 : v * 32768 < 32768 := by linarith
  set q : ℚ := v * 32768 with hq
  have hlb : -32768 ≤ jsTrunc q := by
    unfold jsTrunc
    split
    · rename_i hpos
      have : (0 : ℤ) ≤ ⌊q⌋ := Int.floor_nonneg.mpr hpos
      omega
    · have h := le_trans hq1 (Int.le_ceil q)
      exact_mod_cast h
  have hub : jsTrunc q ≤ 32767 := by
    unfold jsTrunc
    split
    · have hfl : (⌊q⌋ : ℚ) < 32768 := lt_of_le_of_lt (Int.floor_le q) hq2
      have : ⌊q⌋ < 32768 := by exact_mod_cast hfl
      omega
    · rename_i hneg
      have : ⌈q⌉ ≤ (0 : ℤ) := Int.ceil_le.mpr (by exact_mod_cast le_of_lt (not_le.mp hneg))
      omega
  have herr : |(jsTrunc q : ℚ) - q| < 1 := by
    unfold jsTrunc
    split
    · rw [abs_lt]
      constructor
      · have := Int.sub_one_lt_floor q
        linarith
      · have := Int.floor_le q
        linarith
    · rw [abs_lt]
      constructor
      · have := Int.le_ceil q
        linarith
      · have := Int.ceil_lt_add_one q
        linarith
  have hid : toInt16 (jsTrunc q) = jsTrunc q := by
    unfold toInt16
    rw [Int.emod_eq_of_lt (by omega) (by omega)]
    ring
  have hdec : decodeSample (encodeSample v) = (jsTrunc q : ℚ) / 32768 := by
    rw [encodeSample, ← hq, hid, decodeSample]
  have hv : v = q / 32768 := by
    rw [hq]
    ring
  rw [hdec, hv, div_sub_div_same, abs_div]
  rw [abs_of_pos (by norm_num : (0 : ℚ) < 32768)]
  have h32 : (0 : ℚ) < 32768 := by norm_num
  rw [div_le_div_iff₀ h32 h32]
  nlinarith [le_of_lt herr]

/-- Witness for amended C2 at `v = 1/2`. -/
theorem pcm_roundtrip_witness :
    |decodeSample (encodeSample (1 / 2)) - 1 / 2| ≤ 1 / 32768 :=
  pcm_roundtrip (1 / 2) (by norm_num) (by norm_num)

/-! ## Interruption handling -/

/-- Claim C3: after the handler processes any message carrying the
server-signaled interrupted flag — from any state, with any number of
tracked playbacks and any clock value — the tracked set is empty, the
playback clock is zero and the speaking indicator is off. -/
theorem interrupted_resets (cb : Bool) (st : SevaState) (m : ServerMsg)
    (h : m.interrupted = true) :
    (handleMessage cb st m).1.sources = []
    ∧ (handleMessage cb st m).1.nextStartTime = 0
    ∧ (handleMessage cb st m).1.isSpeaking = false := by
  simp [handleMessage, h, interruptedBranch]

/-- Witness for C3 at the concrete interruption message from the initial
state. -/
theorem interrupted_resets_witness :
    (handleMessage true initState interruptMsg).1.sources = []
    ∧ (handleMessage true initState interruptMsg).1.nextStartTime = 0
    ∧ (handleMessage true initState interruptMsg).1.isSpeaking = false :=
  interrupted_resets true initState interruptMsg rfl

/-! ## Transcript aggregation -/

lemma runMsgs_transcripts (cb : Bool) (ts : List String) :
    ∀ st : SevaState,
      runMsgs cb st (ts.map transcriptMsg) =
        ({ st with transcription := ts.getLastD st.transcription }, []) := by
  induction ts with
  | nil => intro st; simp [runMsgs]
  | cons t ts ih =>
    intro st
    have hone : handleMessage cb st (transcriptMsg t) =
        ({ st with transcription := t }, []) := by
      simp [handleMessage, transcriptMsg, audioBranch, transcriptionBranch,
        turnCompleteBranch, interruptedBranch]
    simp only [List.map_cons, runMsgs, hone, ih, List.nil_append]
    rw [List.getLastD_cons]

lemma runMsgs_append (cb : Bool) (ms1 ms2 : List ServerMsg) :
    ∀ st : SevaState,
      runMsgs cb st (ms1 ++ ms2) =
        ((runMsgs cb (runMsgs cb st ms1).1 ms2).1,
          (runMsgs cb st ms1).2 ++ (runMsgs cb (runMsgs cb st ms1).1 ms2).2) := by
  induction ms1 with
  | nil => intro st; simp [runMsgs]
  | cons m ms ih => intro st; simp [runMsgs, ih]

/-- Claim C4: each partial-transcript event replaces the transcript buffer
with its text; running any sequence of partial-transcript events followed by
one turn-complete event (with the command callback installed) dispatches the
final buffer exactly once when it is non-empty and nothing when it is empty,
and resets the buffer to empty in both cases. -/
theorem turn_finalization (st : SevaState) (ts : List String) :
    (∀ s : SevaState, ∀ text : String,
        (transcriptionBranch s (some text)).transcription = text)
    ∧ runMsgs true st (ts.map transcriptMsg ++ [turnMsg]) =
        ({ st with transcription := "" },
          if ts.getLastD st.transcription = "" then []
          else [ts.getLastD st.transcription]) := by
  refine ⟨fun s text => rfl, ?_⟩
  rw [runMsgs_append, runMsgs_transcripts]
  have hturn : ∀ s : SevaState,
      handleMessage true s turnMsg =
        ({ s with transcription := "" },
          if s.transcription = "" then [] else [s.transcription]) := by
    intro s
    by_cases hs : s.transcription = "" <;>
      simp [handleMessage, turnMsg, audioBranch, transcriptionBranch,
        turnCompleteBranch, interruptedBranch, hs]
  simp [runMsgs, hturn]

/-- Claim C10: with no `onCommand` callback installed, a turn — any partial
transcripts followed by turn-complete — dispatches nothing and still resets
the transcript buffer to empty. -/
theorem no_callback_no_dispatch (st : SevaState) (ts : List String) :
    runMsgs false st (ts.map transcriptMsg ++ [turnMsg]) =
      ({ st with transcription := "" }, []) := by
  rw [runMsgs_append, runMsgs_transcripts]
  simp [runMsgs, handleMessage, turnMsg, audioBranch, transcriptionBranch,
    turnCompleteBranch, interruptedBranch]

/-! ## Speaking-indicator invariant -/

lemma transcriptionBranch_sources (st : SevaState) (o : Option String) :
    (transcriptionBranch st o).sources = st.sources := by
  cases o <;> rfl

lemma transcriptionBranch_isSpeaking (st : SevaState) (o : Option String) :
    (transcriptionBranch st o).isSpeaking = st.isSpeaking := by
  cases o <;> rfl

lemma turnCompleteBranch_sources (cb : Bool) (st : SevaState) (b : Bool) :
    (turnCompleteBranch cb st b).1.sources = st.sources := by
  cases b <;> rfl

lemma turnCompleteBranch_isSpeaking (cb : Bool) (st : SevaState) (b : Bool) :
    (turnCompleteBranch cb st b).1.isSpeaking = st.isSpeaking := by
  cases b <;> rfl

lemma speakingInv_step (cb : Bool) (st : SevaState) (e : Event)
    (h : speakingInv st) : speakingInv (stepEvent cb st e).1 := by
  cases e with
  | server m =>
    cases hi : m.interrupted
    · simp only [stepEvent, speakingInv, handleMessage, hi, interruptedBranch,
        turnCompleteBranch_sources, turnCompleteBranch_isSpeaking,
        transcriptionBranch_sources, transcriptionBranch_isSpeaking]
      cases ha : m.audioData with
      | none => simpa [audioBranch] using h
      | some p =>
        obtain ⟨d, t⟩ := p
        simp [audioBranch]
    · simp [stepEvent, speakingInv, handleMessage, hi, interruptedBranch]
  | ended s =>
    intro hne
    simp only [stepEvent, handleEnded] at hne ⊢
    have hnil : st.sources.erase s ≠ [] := by simpa using hne
    have hne' : st.sources ≠ [] := by
      intro h0
      rw [h0] at hnil
      simp at hnil
    have hemp : (st.sources.erase s).isEmpty = false := by
      cases hl : (st.sources.erase s).isEmpty
      · rfl
      · exact absurd (List.isEmpty_iff.mp hl) hnil
    simp only [hemp, Bool.false_eq_true, if_false]
    exact h hne'

lemma speakingInv_run (cb : Bool) (es : List Event) :
    ∀ st : SevaState, speakingInv st → speakingInv (runEvents cb st es).1 := by
  induction es with
  | nil => intro st h; simpa [runEvents] using h
  | cons e es ih =>
    intro st h
    simpa [runEvents] using ih (stepEvent cb st e).1 (speakingInv_step cb st e h)

/-- Claim C8: along any event sequence from the initial state, whenever the
tracked set is non-empty the speaking indicator is on; a playback is added
to the tracked set (with start time `max(PlaybackClock, device time)`) when
it is scheduled; the `onended` handler removes exactly that source, and the
removal that empties the tracked set turns the speaking indicator off. -/
theorem speaking_indicator (cb : Bool) (es : List Event) :
    speakingInv (runEvents cb initState es).1
    ∧ (∀ st : SevaState, ∀ s : Source,
        (handleEnded st s).sources = st.sources.erase s
        ∧ ((handleEnded st s).sources = [] → (handleEnded st s).isSpeaking = false))
    ∧ (∀ st : SevaState, ∀ d t : ℚ,
        (audioBranch st (some (d, t))).isSpeaking = true
        ∧ (audioBranch st (some (d, t))).sources =
            st.sources ++
              [{ id := st.nextId, start := max st.nextStartTime t
                 dur := d, ended := false, stopRequested := false }]) := by
  refine ⟨speakingInv_run cb es initState ?_, fun st s => ⟨rfl, ?_⟩,
    fun st d t => ⟨rfl, rfl⟩⟩
  · intro hne
    exact absurd rfl hne
  · intro hemp
    simp only [handleEnded] at hemp ⊢
    simp [List.isEmpty_iff, hemp]

/-- Witness for C8: after one scheduled audio frame from the initial state,
the tracked set is non-empty and the speaking indicator is on. -/
theorem speaking_indicator_witness :
    (runEvents true initState [Event.server (audioMsg 0 (1 / 2))]).1.isSpeaking = true :=
  (speaking_indicator true [Event.server (audioMsg 0 (1 / 2))]).1
    (by simp [runEvents, stepEvent, handleMessage, audioMsg, audioBranch,
      transcriptionBranch, turnCompleteBranch, interruptedBranch, initState])

/-! ## Interruption cleanup never raises -/

/-- Claim C9: during interruption cleanup, stopping an already-completed
playback raises inside `stop()`, but the `try/catch` swallows the error and
leaves the node unchanged; the `forEach` visits every tracked source, so the
cleanup result has one entry per tracked source, each equal to the swallowed
stop attempt on that source — no error escapes the handler. -/
theorem stop_errors_swallowed (srcs : List Source) :
    (∀ s ∈ srcs, s.ended = true →
        stopSource s = Except.error "InvalidStateError" ∧ tryStopSource s = s)
    ∧ (stopAll srcs).length = srcs.length
    ∧ (∀ i, i < srcs.length →
        (stopAll srcs).getD i default = tryStopSource (srcs.getD i default)) := by
  refine ⟨fun s _ hs => ⟨by simp [stopSource, hs], by simp [tryStopSource, stopSource, hs]⟩,
    by simp [stopAll], fun i hi => ?_⟩
  have h1 : i < (stopAll srcs).length := by simpa [stopAll] using hi
  rw [List.getD_eq_getElem _ _ h1, List.getD_eq_getElem _ _ hi]
  simp [stopAll]

/-- Witness for C9: stopping a single already-ended tracked playback is
swallowed and cleanup still visits it. -/
theorem stop_errors_swallowed_witness :
    tryStopSource { id := 0, start := 0, dur := 1, ended := true, stopRequested := false } =
        { id := 0, start := 0, dur := 1, ended := true, stopRequested := false }
    ∧ (stopAll [{ id := 0, start := 0, dur := 1, ended := true, stopRequested := false }]).length
        = 1 :=
  ⟨((stop_errors_swallowed
        [{ id := 0, start := 0, dur := 1, ended := true, stopRequested := false }]).1
      _ (by simp) rfl).2,
    (stop_errors_swallowed
        [{ id := 0, start := 0, dur := 1, ended := true, stopRequested := false }]).2.1⟩

/-! ## Session channel ordering -/

/-- Channel well-formedness: once the connection promise has resolved, no
reaction remains queued. -/
def chanInv (ch : Channel) : Prop :=
  ch.resolved = true → ch.queued = []

lemma chanStep_inv (ch : Channel) (op : ChanOp) (h : chanInv ch) :
    chanInv (chanStep ch op) := by
  cases op with
  | capture f =>
    by_cases hr : ch.resolved = true
    · intro _
      simp [chanStep, hr, h hr]
    · intro hc
      simp only [chanStep] at hc
      rw [if_neg (by simp [hr])] at hc
      exact absurd hc hr
  | resolve => intro _; rfl

lemma chanStep_content (ch : Channel) (op : ChanOp) (h : chanInv ch) :
    (chanStep ch op).sent ++ (chanStep ch op).queued =
      ch.sent ++ ch.queued ++ captures [op] := by
  cases op with
  | capture f =>
    by_cases hr : ch.resolved = true
    · simp [chanStep, hr, h hr, captures]
    · rw [chanStep]
      rw [if_neg (by simp [hr])]
      simp [captures]
  | resolve => simp [chanStep, captures]

lemma runChan_content (ops : List ChanOp) :
    ∀ ch : Channel, chanInv ch →
      (runChan ch ops).sent ++ (runChan ch ops).queued =
        ch.sent ++ ch.queued ++ captures ops := by
  induction ops with
  | nil => intro ch _; simp [runChan, captures]
  | cons op ops ih =>
    intro ch h
    have : runChan ch (op :: ops) = runChan (chanStep ch op) ops := rfl
    rw [this, ih (chanStep ch op) (chanStep_inv ch op h)]
    rw [chanStep_content ch op h]
    simp [captures, List.filterMap_cons]
    cases op <;> simp

lemma runChan_inv (ops : List ChanOp) :
    ∀ ch : Channel, chanInv ch → chanInv (runChan ch ops) := by
  induction ops with
  | nil => intro ch h; exact h
  | cons op ops ih => intro ch h; exact ih (chanStep ch op) (chanStep_inv ch op h)

lemma runChan_no_resolve (ops : List ChanOp) :
    ∀ ch : Channel, (∀ op ∈ ops, op ≠ ChanOp.resolve) → ch.resolved = false →
      (runChan ch ops).sent = ch.sent ∧ (runChan ch ops).resolved = false := by
  induction ops with
  | nil => intro ch _ hr; exact ⟨rfl, hr⟩
  | cons op ops ih =>
    intro ch hops hr
    cases op with
    | capture f =>
      have hstep : chanStep ch (ChanOp.capture f) =
          { ch with queued := ch.queued ++ [f] } := by
        simp [chanStep, hr]
      have : runChan ch (ChanOp.capture f :: ops) =
          runChan (chanStep ch (ChanOp.capture f)) ops := rfl
      rw [this, hstep]
      exact ih _ (fun o ho => hops o (List.mem_cons_of_mem _ ho)) hr
    | resolve => exact absurd rfl (hops ChanOp.resolve (List.mem_cons_self _ _))

lemma runChan_resolved_mono (ops : List ChanOp) :
    ∀ ch : Channel, ch.resolved = true → (runChan ch ops).resolved = true := by
  induction ops with
  | nil => intro ch h; exact h
  | cons op ops ih =>
    intro ch h
    have hstep : (chanStep ch op).resolved = true := by
      cases op with
      | capture f => simp [chanStep, h]
      | resolve => rfl
    exact ih (chanStep ch op) hstep

lemma runChan_resolved_mem (ops : List ChanOp) :
    ∀ ch : Channel, ChanOp.resolve ∈ ops → (runChan ch ops).resolved = true := by
  induction ops with
  | nil => intro ch h; simp at h
  | cons op ops ih =>
    intro ch h
    rcases List.mem_cons.mp h with heq | hmem
    · subst heq
      exact runChan_resolved_mono ops (chanStep ch ChanOp.resolve) rfl
    · exact ih (chanStep ch op) hmem

/-- Claim C5: for any interleaving of captured outbound frames and the
resolution of the connection promise, no frame is delivered before the
connection is established; frames captured before resolution are queued
FIFO behind it; and once the connection has been established the delivered
frames are exactly the captured frames, in capture order. -/
theorem session_channel_fifo (ops : List ChanOp) :
    (runChan chanInit ops).sent ++ (runChan chanInit ops).queued = captures ops
    ∧ ((∀ op ∈ ops, op ≠ ChanOp.resolve) → (runChan chanInit ops).sent = [])
    ∧ (ChanOp.resolve ∈ ops →
        (runChan chanInit ops).queued = []
        ∧ (runChan chanInit ops).sent = captures ops) := by
  have hinv : chanInv chanInit := by
    intro h
    simp [chanInit] at h
  refine ⟨?_, ?_, ?_⟩
  · simpa [chanInit] using runChan_content ops chanInit hinv
  · intro h
    exact (runChan_no_resolve ops chanInit h rfl).1
  · intro h
    have hq : (runChan chanInit ops).queued = [] :=
      runChan_inv ops chanInit hinv (runChan_resolved_mem ops chanInit h)
    refine ⟨hq, ?_⟩
    have hc := runChan_content ops chanInit hinv
    rw [hq] at hc
    simpa [chanInit] using hc

/-- Witness for C5: capture one frame before resolution and one after; both
are delivered, in capture order, once the connection is established. -/
theorem session_channel_fifo_witness :
    (runChan chanInit [ChanOp.capture 7, ChanOp.resolve, ChanOp.capture 8]).queued = []
    ∧ (runChan chanInit [ChanOp.capture 7, ChanOp.resolve, ChanOp.capture 8]).sent =
        captures [ChanOp.capture 7, ChanOp.resolve, ChanOp.capture 8] :=
  (session_channel_fifo [ChanOp.capture 7, ChanOp.resolve, ChanOp.capture 8]).2.2
    (by simp)

/-! ## Session startup and shutdown -/

/-- Claim C6: when session startup fails — microphone unavailable,
permission denied, or connection handshake failure — and no session was
stored and the component was inactive, startup leaves the session handle
absent and the active state off, and the failure is absorbed (the model is
total); a subsequent successful retry activates the session. -/
theorem startup_failure_atomic (st : SevaState) (micOk connectOk : Bool)
    (hfail : micOk = false ∨ connectOk = false)
    (hsess : st.sessionRef = none) (hact : st.isActive = false) :
    (startSessionModel st micOk connectOk).sessionRef = none
    ∧ (startSessionModel st micOk connectOk).isActive = false
    ∧ (startSessionModel (startSessionModel st micOk connectOk) true true).sessionRef
        = some ()
    ∧ (startSessionModel (startSessionModel st micOk connectOk) true true).isActive
        = true := by
  rcases hfail with h | h
  · subst h
    simp [startSessionModel, hsess, hact]
  · subst h
    cases micOk <;> simp [startSessionModel, hsess, hact]

/-- Witness for C6: failed startup from the initial state stores no session
and stays inactive; the retry succeeds. -/
theorem startup_failure_atomic_witness :
    (startSessionModel initState false false).sessionRef = none
    ∧ (startSessionModel initState false false).isActive = false
    ∧ (startSessionModel (startSessionModel initState false false) true true).sessionRef
        = some ()
    ∧ (startSessionModel (startSessionModel initState false false) true true).isActive
        = true :=
  startup_failure_atomic initState false false (Or.inl rfl) rfl rfl

/-- Claim C7: `stopSession` with no active session performs no remote
`close()` call and only (re)sets the local inactive/minimised state; and
running `stopSession` twice leaves exactly the state of running it once,
with no remote call on the second run. -/
theorem close_idempotent (st : SevaState) :
    (st.sessionRef = none →
        stopSessionModel st = ({ st with isActive := false, isMinimized := true }, false))
    ∧ (stopSessionModel (stopSessionModel st).1).1 = (stopSessionModel st).1
    ∧ (stopSessionModel (stopSessionModel st).1).2 = false := by
  refine ⟨fun h => by simp [stopSessionModel, h], ?_, ?_⟩
  · cases hs : st.sessionRef <;> simp [stopSessionModel, hs]
  · cases hs : st.sessionRef <;> simp [stopSessionModel, hs]

/-- Witness for C7 at the initial (sessionless) state. -/
theorem close_idempotent_witness :
    stopSessionModel initState = ({ initState with isActive := false, isMinimized := true }, false)
    ∧ (stopSessionModel (stopSessionModel initState).1).2 = false :=
  ⟨(close_idempotent initState).1 rfl, (close_idempotent initState).2.2⟩
